import Mathlib

/-!
Verification development for the FinancialFileFetcher repository
(`src/FinancialFileFetcher/FinancialFileFetcher.py`).

The table-scraping pipeline (`display_table`), the filing-summary index
resolver (`get_table_info`) and the name lookup (`get_table_url`) are
shallowly embedded below.  Rows of a parsed HTML table are modelled by the
data the Python code actually reads from a `<tr>` element: the stripped
texts of its `td` cells, the stripped texts of its `th` cells, and whether
any `strong` tag occurs in the row.  Pandas DataFrames keyed by original
row position are modelled as association lists `List (Nat × _)`; the
`sort_index` call is modelled by an insertion sort on the position key.
Python floats are modelled as exact rationals (every numeric value settled
by a claim below is a dyadic rational, hence exactly representable in
float64, so this idealisation is faithful on those inputs).
-/

namespace FFF

/-- A parsed value of a coerced cell: either the float produced by
`astype(float)` or the NaN missing-value marker. -/
inductive NumCell where
  | missing : NumCell
  | val : ℚ → NumCell
deriving DecidableEq

/-- A cell of the merged table: section-row cells (and data-row labels)
stay raw strings, coerced data cells are numeric. -/
inductive CellV where
  | str : String → CellV
  | num : NumCell → CellV
deriving DecidableEq

/-- What the Python loop body reads from one `<tr>` row: the stripped texts
of its `td` cells (`cols`), of its `th` cells, and whether the row contains
any `strong` element. -/
structure Row where
  tds : List String
  ths : List String
  strong : Bool
deriving DecidableEq

/-- `statement_data` after the classification loop: captured header rows in
document order, and the section/data buckets keyed by original row
position (Python dicts preserve insertion order, so the buckets list
positions in ascending document order). -/
structure StatementData where
  headers : List (List String)
  sections : List (Nat × List String)
  data : List (Nat × List String)
deriving DecidableEq

/-- The fully assembled table returned on the `SUCCESS!` path of
`display_table`: the index name (the " - "-joined first header row), the
row-label index, the renamed column headers, and the value matrix
(column 0 removed). -/
structure FinalTable where
  title : String
  rowLabels : List CellV
  columnHeaders : List String
  body : List (List CellV)
deriving DecidableEq

/-- The observable result of `display_table`.  The Python function returns
`None` on some failures and a half-processed DataFrame on others; each
return statement of the source gets its own constructor.
`halfCoerced` carries the data bucket after the string-replacement
assignment succeeded but `astype(float)` raised (the first
`df.iloc[:,1:] = ...` assignment has already run at that point);
`halfRenamed` carries the merged, position-sorted, padded table that the
renaming stage was working on when it raised. -/
inductive ScrapeResult where
  | classifyNone : ScrapeResult
  | dfNone : ScrapeResult
  | halfCoerced : List (Nat × List String) → ScrapeResult
  | halfRenamed : List (Nat × List CellV) → ScrapeResult
  | headerNone : ScrapeResult
  | success : FinalTable → ScrapeResult
deriving DecidableEq

/-- Whether a `ScrapeResult` is the fully assembled success value. -/
def ScrapeResult.isSuccess : ScrapeResult → Bool
  | .success _ => true
  | _ => false

/-! ## Numeric normalizer (lines 387-394 of the source)

The chained pandas replaces on `df.iloc[:,1:]`:
`replace('[\$,)]','',regex=True)` deletes every `$`, `,`, `)` character;
`replace('[(]','-',regex=True)` rewrites every `(` to `-`;
`replace('','NaN',regex=True)` has an empty pattern, for which pandas
(`should_use_regex` rejects an empty compiled pattern) falls back to
exact-value replacement, so exactly-empty cells become the string "NaN";
`astype(float)` then parses every cell. -/

/-- The per-cell effect of the three chained `replace` calls. -/
def normalizeCell (s : String) : String :=
  let t := String.mk (((s.data.filter
      (fun c => !(c = '$' || c = ',' || c = ')'))).map
      (fun c => if c = '(' then '-' else c)))
  if t = "" then "NaN" else t

/-- Digit-string value: `foldl` over decimal digits. -/
def digitsToNat (cs : List Char) : Nat :=
  cs.foldl (fun a c => 10 * a + (c.toNat - 48)) 0

/-- All characters are decimal digits. -/
def allDigits (cs : List Char) : Bool := cs.all Char.isDigit

/-- Python `float()` on an unsigned decimal literal (`"123"`, `"123.45"`,
`".5"`, `"5."`); exponent/infinity forms never arise in this pipeline and
are not modelled.  The value is the exact rational denoted by the
literal. -/
def parseUnsigned (cs : List Char) : Option ℚ :=
  let ip := cs.takeWhile (fun c => c ≠ '.')
  match cs.dropWhile (fun c => c ≠ '.') with
  | [] => if allDigits ip && !ip.isEmpty then some (mkRat (digitsToNat ip) 1) else none
  | _ :: frac =>
      if allDigits ip && allDigits frac && !(ip.isEmpty && frac.isEmpty) then
        some (mkRat (digitsToNat ip * 10 ^ frac.length + digitsToNat frac) (10 ^ frac.length))
      else none

/-- Python `float()` as used by `astype(float)` on the normalizer's output:
the string "NaN" parses to the missing marker, an optional single leading
sign precedes an unsigned decimal literal. -/
def parseFloat (s : String) : Option NumCell :=
  if s = "NaN" then some .missing
  else
    match s.data with
    | '-' :: rest => (parseUnsigned rest).map (fun q => .val (-q))
    | '+' :: rest => (parseUnsigned rest).map (fun q => .val q)
    | cs => (parseUnsigned cs).map (fun q => .val q)

/-- The whole numeric normalizer on one data cell at column index ≥ 1:
character replacements, empty-to-NaN, then float parsing. -/
def coerceCell (s : String) : Option NumCell := parseFloat (normalizeCell s)

/-- Effect of the first (string-level) assignment
`df.iloc[:,1:] = df.iloc[:,1:].replace(...)` on one data row: column 0 is
outside the slice and untouched. -/
def normRowTail (cs : List String) : List String :=
  match cs with
  | [] => []
  | c0 :: rest => c0 :: rest.map normalizeCell

/-- `Option`-valued map that fails if any element fails (structural, so it
evaluates by kernel reduction). -/
def mapO {β γ : Type} (f : β → Option γ) : List β → Option (List γ)
  | [] => some []
  | a :: l =>
      match f a, mapO f l with
      | some b, some out => some (b :: out)
      | _, _ => none

/-- Both assignments of the coercion stage on one data row: column 0 stays
the raw label string, every later cell must parse to a float. -/
def coerceRow (cs : List String) : Option (List CellV) :=
  match cs with
  | [] => some []
  | c0 :: rest => (mapO (fun s => (coerceCell s).map CellV.num) rest).map
      (fun tl => CellV.str c0 :: tl)

/-- The coercion stage on the whole data bucket: `astype(float)` raises if
any cell of any data row fails to parse. -/
def coerceData (rows : List (Nat × List String)) : Option (List (Nat × List CellV)) :=
  mapO (fun p => (coerceRow p.2).map (fun r => (p.1, r))) rows

/-! ## Row classifier (lines 352-375 of the source)

The loop tests, in order: no `th` and no `strong` ⇒ data row; no `th` and
some `strong` ⇒ section row; some `th` ⇒ header row; the final `else`
(`return None`) is kept as the `none` branch even though the three guards
are exhaustive, mirroring the source exactly. -/

/-- What one iteration of the classification loop does with a row. -/
inductive RowKind where
  | dataRow : RowKind
  | secRow : RowKind
  | header : RowKind
deriving DecidableEq

/-- The `if/elif/elif/else` chain of the classification loop. -/
def classifyRow (r : Row) : Option RowKind :=
  if r.ths.length = 0 && r.strong = false then some .dataRow
  else if r.ths.length = 0 && r.strong = true then some .secRow
  else if !(r.ths.length = 0) then some .header
  else none

/-- `enumerate` over the rows of the document. -/
def enumRows : Nat → List Row → List (Nat × Row)
  | _, [] => []
  | i, r :: rest => (i, r) :: enumRows (i + 1) rest

/-- The classification loop over an enumerated row list, building
`statement_data`; `none` if any row hits the unclassifiable branch. -/
def classifyAux : List (Nat × Row) → Option StatementData
  | [] => some ⟨[], [], []⟩
  | (i, r) :: rest => do
      let s ← classifyAux rest
      match classifyRow r with
      | some .dataRow => some { s with data := (i, r.tds) :: s.data }
      | some .secRow => some { s with sections := (i, r.tds) :: s.sections }
      | some .header => some { s with headers := r.ths :: s.headers }
      | none => none

/-- Classification of the whole document (the `for index, row in
enumerate(...)` loop). -/
def classifyDoc (doc : List Row) : Option StatementData := classifyAux (enumRows 0 doc)

/-! ## Table assembler (lines 379-428 of the source) -/

/-- `pd.DataFrame(dict_of_lists)` raises unless all value lists have the
same length; this predicate models that check for one bucket. -/
def uniformLen (rows : List (Nat × List String)) : Bool :=
  match rows with
  | [] => true
  | (_, r) :: rest => rest.all (fun p => p.2.length = r.length)

/-- Number of columns contributed by one bucket's DataFrame (its uniform
row width; 0 for an empty bucket). -/
def rowsWidth (rows : List (Nat × List String)) : Nat :=
  ((rows.headD (0, [])).2).length

/-- Column count of the concatenated frame: `pd.concat` aligns the two
`RangeIndex` column sets, i.e. takes the larger width. -/
def tableWidth (sd : StatementData) : Nat :=
  max (rowsWidth sd.data) (rowsWidth sd.sections)

/-- `pd.concat` pads a row of the narrower frame with NaN cells up to the
full column set. -/
def padRow (w : Nat) (r : List CellV) : List CellV :=
  r ++ List.replicate (w - r.length) (.num .missing)

/-- `ret_df.sort_index()`: sort the position-keyed rows by key (pandas
sorts the integer index ascending). -/
def sortByKey {α : Type} (l : List (Nat × α)) : List (Nat × α) :=
  List.insertionSort (fun a b => a.1 ≤ b.1) l

/-- `pd.concat([df, sections_df])` followed by `sort_index`: the coerced
data rows and the (never-coerced, still raw string) section rows, merged
and re-sorted by original position. -/
def mergedRowsOf (sd : StatementData) (dataC : List (Nat × List CellV)) :
    List (Nat × List CellV) :=
  sortByKey (dataC ++ sd.sections.map (fun p => (p.1, p.2.map CellV.str)))

/-- `(' - ').join(...)` on the first header row. -/
def joinDash (l : List String) : String :=
  match l with
  | [] => ""
  | x :: xs => xs.foldl (fun a s => a ++ " - " ++ s) x

/-- `ret_df.index = ret_df[0]`: the label column of each padded merged
row. -/
def labelsOf (merged : List (Nat × List CellV)) : List CellV :=
  merged.map (fun p => p.2.headD (.num .missing))

/-- `ret_df.drop(0, axis=1)`: each padded merged row without its label
column. -/
def bodyOf (merged : List (Nat × List CellV)) : List (List CellV) :=
  merged.map (fun p => p.2.tail)

/-- The merged, position-sorted frame with every row padded by `pd.concat`
to the full column set. -/
def paddedMergedOf (sd : StatementData) (dataC : List (Nat × List CellV)) :
    List (Nat × List CellV) :=
  (mergedRowsOf sd dataC).map (fun p => (p.1, padRow (tableWidth sd) p.2))

/-- The renaming stage (lines 407-428).  `ret_df[0]` raises `KeyError`
when the concatenated frame has no column 0 (width 0), and
`statement_data['headers'][0]` raises `IndexError` when no header row was
captured — both land in the `except` that returns the half-processed
`ret_df`.  With 1 or 2 header rows, `ret_df.columns = header` raises
(caught the same way) unless the header length equals the value-column
count; only a header count of 3 or more reaches the explicit
`return None` of the header-framing `else`. -/
def assemble (sd : StatementData) (dataC : List (Nat × List CellV)) : ScrapeResult :=
  if tableWidth sd = 0 then .halfRenamed (paddedMergedOf sd dataC)
  else
    match sd.headers with
    | [] => .halfRenamed (paddedMergedOf sd dataC)
    | h0 :: hrest =>
        match hrest with
        | [] =>
            if h0.tail.length = tableWidth sd - 1 then
              .success ⟨joinDash h0, labelsOf (paddedMergedOf sd dataC), h0.tail,
                bodyOf (paddedMergedOf sd dataC)⟩
            else .halfRenamed (paddedMergedOf sd dataC)
        | [h1] =>
            if h1.length = tableWidth sd - 1 then
              .success ⟨joinDash h0, labelsOf (paddedMergedOf sd dataC), h1,
                bodyOf (paddedMergedOf sd dataC)⟩
            else .halfRenamed (paddedMergedOf sd dataC)
        | _ :: _ :: _ => .headerNone

/-- The scraping pipeline of `display_table` from the parsed row list on:
classification, the two-DataFrame construction, numeric coercion, merge,
and renaming.  (The fetch of the document and the initial URL lookup are
the transport collaborator and are not part of this function; a transport
failure returns `None` before any of this runs.) -/
def display_table (doc : List Row) : ScrapeResult :=
  match classifyDoc doc with
  | none => .classifyNone
  | some sd =>
      if uniformLen sd.data && uniformLen sd.sections then
        match coerceData sd.data with
        | none => .halfCoerced (sd.data.map (fun p => (p.1, normRowTail p.2)))
        | some dataC => assemble sd dataC
      else .dfNone

/-- Cell lookup in the assembled table by row label and column header
(first match of each, as pandas `.loc` would resolve unique labels). -/
def FinalTable.cell (t : FinalTable) (rl ch : String) : Option CellV :=
  match t.rowLabels.findIdx? (fun c => c = CellV.str rl),
      t.columnHeaders.findIdx? (fun c => c = ch) with
  | some i, some j => (t.body.get? i).bind (fun r => r.get? j)
  | _, _ => none

/-! ## Classification views used by the theorems -/

/-- The data-row condition of the first `if` (no `th`, no `strong`). -/
def isDataRow (p : Nat × Row) : Bool := p.2.ths.isEmpty && !p.2.strong

/-- The section-row condition of the first `elif`. -/
def isSecRow (p : Nat × Row) : Bool := p.2.ths.isEmpty && p.2.strong

/-- The header-row condition of the second `elif`. -/
def isHeaderRow (p : Nat × Row) : Bool := !p.2.ths.isEmpty

/-- The enumerated non-header rows of a document, in document order: these
are exactly the rows that receive a position key. -/
def nonHeaderRows (doc : List Row) : List (Nat × Row) :=
  (enumRows 0 doc).filter (fun p => p.2.ths.isEmpty)

/-- The merged-frame cell row a non-header row ends up with: section rows
stay raw strings, data rows are label-plus-floats (the value `coerceRow`
returned, the coercion stage having succeeded). -/
def cellsOfRow (r : Row) : List CellV :=
  if r.strong then r.tds.map CellV.str else (coerceRow r.tds).getD []

/-- The label cell contributed by a non-header row with cell texts `cs`
once padding put a NaN where a row had no column-0 cell. -/
def labelOf (cs : List String) : CellV :=
  match cs with
  | [] => .num .missing
  | c :: _ => .str c

/-! ## Table index resolver and name lookup (lines 150-283 of the source)

`get_table_info` computes `lst = re.findall(r"\/[^\/]+", url)[-1]` (the
last maximal substring consisting of a `/` followed by non-`/`
characters), derives the filing-summary URL with `url.replace(lst,
'/FilingSummary.xml')`, and each table URL with `url.replace(lst, '/' +
filename)`.  Python `str.replace` replaces every occurrence of the
substring, which the fuel-structured `replaceAllF` below mirrors (the
fuel equals the string length, which always suffices since every step
consumes at least one character).  Strings are handled as character
lists so that everything reduces in the kernel. -/

/-- One step of scanning for matches of the regex `\/[^\/]+`: fuelled,
structurally recursive version. -/
def segMatchesF : Nat → List Char → List (List Char)
  | 0, _ => []
  | _ + 1, [] => []
  | f + 1, c :: rest =>
      if c = '/' then
        let seg := rest.takeWhile (fun x => x ≠ '/')
        if seg.isEmpty then segMatchesF f rest
        else ('/' :: seg) :: segMatchesF f (rest.dropWhile (fun x => x ≠ '/'))
      else segMatchesF f rest

/-- All matches of `re.findall(r"\/[^\/]+", url)`, in order. -/
def segMatches (s : List Char) : List (List Char) := segMatchesF s.length s

/-- Python `str.replace`: replace every (non-overlapping, leftmost-first)
occurrence of `pat` in `s` by `repl`.  Fuelled structural recursion; a
step either consumes the matched pattern or one character.  (`pat` is
never empty where this is used: the regex match `lst` always starts with
`'/'`.) -/
def replaceAllF (pat repl : List Char) : Nat → List Char → List Char
  | 0, s => s
  | _ + 1, [] => []
  | f + 1, c :: rest =>
      if !pat.isEmpty && pat.isPrefixOf (c :: rest) then
        repl ++ replaceAllF pat repl f (rest.drop (pat.length - 1))
      else c :: replaceAllF pat repl f rest

/-- `s.replace(pat, repl)` for strings as character lists. -/
def replaceAll (s pat repl : List Char) : List Char := replaceAllF pat repl s.length s

/-- The fixed index filename segment `'/FilingSummary.xml'`. -/
def FilingSummarySeg : List Char := "/FilingSummary.xml".data

/-- The filing-summary URL derivation of `get_table_info` (lines 184-185):
`url.replace(lst, '/FilingSummary.xml')` where `lst` is the last
`\/[^\/]+` match; `none` models the `IndexError` crash of `[-1]` when the
URL has no such match. -/
def xml_summary_of (url : List Char) : Option (List Char) :=
  ((segMatches url).getLast?).map (fun lst => replaceAll url lst FilingSummarySeg)

/-- `get_table_info` from the parsed index document on: `entries` is the
ordered list of `(shortname, htmlfilename)` pairs of the `<report>`
elements (extracting them is the markup-parser collaborator).  The loop
runs over `reports.find_all('report')[:-1]`, i.e. all entries but the
last, and builds each table URL with `url.replace(lst, '/' + filename)`.
`none` models the two uncaught crashes, in source order: the `IndexError`
of `[-1]` at line 184 on a URL without a segment match, and the
`KeyError('name_short')` at line 203 when `master_reports` is empty
(0 or 1 entries, since `[:-1]` drops the last): `pd.DataFrame([])` has no
`name_short` column. -/
def get_table_info (url : List Char) (entries : List (List Char × List Char)) :
    Option (List (List Char × List Char)) :=
  match (segMatches url).getLast? with
  | none => none
  | some lst =>
      if entries.dropLast.isEmpty then none
      else some (entries.dropLast.map (fun e => (e.1, replaceAll url lst ('/' :: e.2))))

/-- `get_table_url` from the resolver's output on (lines 277-283): the
boolean mask `table_info.index == table_name` keeps the matching entries
in document order, `.values[0]` takes the first, and the bare `except`
turns the no-match `IndexError` into a `None` return. -/
def get_table_url (table_info : List (String × String)) (table_name : String) :
    Option String :=
  match table_info.filter (fun e => e.1 = table_name) with
  | [] => none
  | e :: _ => some e.2

/-- Modelled from the spec (refinement comparison only, following the
spec's words in §4.1: "derive the sibling filing summary index URL by
replacing the last path segment of the statement URL with a fixed index
filename ...; every other part of the URL is left unchanged"): drop the
final path segment after the last `/` and append the replacement
segment. -/
def replaceLastSegmentSpec (url repl : List Char) : List Char :=
  ((url.reverse.dropWhile (fun c => c ≠ '/')).reverse).dropLast ++ repl

/-! ## Helper lemmas: classification -/

theorem classifyRow_eq_some (r : Row) :
    classifyRow r =
      some (if r.ths.isEmpty then (if r.strong then .secRow else .dataRow)
        else .header) := by
  rcases r with ⟨tds, ths, strong⟩
  cases ths <;> cases strong <;> simp [classifyRow]

theorem classifyAux_eq (l : List (Nat × Row)) :
    classifyAux l = some
      ⟨(l.filter isHeaderRow).map (fun p => p.2.ths),
       (l.filter isSecRow).map (fun p => (p.1, p.2.tds)),
       (l.filter isDataRow).map (fun p => (p.1, p.2.tds))⟩ := by
  induction l with
  | nil => rfl
  | cons p rest ih =>
      obtain ⟨i, r⟩ := p
      simp only [classifyAux, ih, Option.bind_eq_bind, Option.some_bind,
        classifyRow_eq_some]
      rcases r with ⟨tds, ths, strong⟩
      cases hh : ths.isEmpty <;> cases strong <;>
        simp [isHeaderRow, isSecRow, isDataRow, List.filter_cons, hh]

theorem classifyDoc_eq (doc : List Row) :
    classifyDoc doc = some
      ⟨((enumRows 0 doc).filter isHeaderRow).map (fun p => p.2.ths),
       ((enumRows 0 doc).filter isSecRow).map (fun p => (p.1, p.2.tds)),
       ((enumRows 0 doc).filter isDataRow).map (fun p => (p.1, p.2.tds))⟩ :=
  classifyAux_eq _

theorem classifyDoc_inv (doc : List Row) (sd : StatementData)
    (h : classifyDoc doc = some sd) :
    sd.headers = ((enumRows 0 doc).filter isHeaderRow).map (fun p => p.2.ths) ∧
    sd.sections = ((enumRows 0 doc).filter isSecRow).map (fun p => (p.1, p.2.tds)) ∧
    sd.data = ((enumRows 0 doc).filter isDataRow).map (fun p => (p.1, p.2.tds)) := by
  have h2 := classifyDoc_eq doc
  rw [h] at h2
  obtain ⟨rfl⟩ := Option.some.inj h2
  exact ⟨rfl, rfl, rfl⟩

/-! ## Helper lemmas: pipeline shape -/

theorem display_table_eq (doc : List Row) (sd : StatementData)
    (h : classifyDoc doc = some sd) :
    display_table doc =
      if uniformLen sd.data && uniformLen sd.sections then
        match coerceData sd.data with
        | none => .halfCoerced (sd.data.map (fun p => (p.1, normRowTail p.2)))
        | some dataC => assemble sd dataC
      else .dfNone := by
  unfold display_table
  rw [h]

theorem assemble_ne_classifyNone (sd : StatementData)
    (dataC : List (Nat × List CellV)) : assemble sd dataC ≠ .classifyNone := by
  unfold assemble
  split
  · simp
  · split
    · simp
    · split
      · split <;> simp
      · split <;> simp
      · simp

theorem display_table_ne_classifyNone (doc : List Row) :
    display_table doc ≠ .classifyNone := by
  rw [display_table_eq doc _ (classifyDoc_eq doc)]
  split
  · split
    · simp
    · exact assemble_ne_classifyNone _ _
  · simp

theorem assemble_headers_nil (sd : StatementData) (dataC : List (Nat × List CellV))
    (hh : sd.headers = []) :
    assemble sd dataC = .halfRenamed (paddedMergedOf sd dataC) := by
  unfold assemble
  rw [hh]
  split <;> rfl

theorem assemble_w0 (sd : StatementData) (dataC : List (Nat × List CellV))
    (hw : tableWidth sd = 0) :
    assemble sd dataC = .halfRenamed (paddedMergedOf sd dataC) := by
  unfold assemble
  rw [if_pos hw]

theorem assemble_headers_one (sd : StatementData) (dataC : List (Nat × List CellV))
    (h0 : List String) (hw : tableWidth sd ≠ 0) (hh : sd.headers = [h0]) :
    assemble sd dataC =
      if h0.tail.length = tableWidth sd - 1 then
        .success ⟨joinDash h0, labelsOf (paddedMergedOf sd dataC), h0.tail,
          bodyOf (paddedMergedOf sd dataC)⟩
      else .halfRenamed (paddedMergedOf sd dataC) := by
  unfold assemble
  rw [if_neg hw, hh]

theorem assemble_headers_two (sd : StatementData) (dataC : List (Nat × List CellV))
    (h0 h1 : List String) (hw : tableWidth sd ≠ 0) (hh : sd.headers = [h0, h1]) :
    assemble sd dataC =
      if h1.length = tableWidth sd - 1 then
        .success ⟨joinDash h0, labelsOf (paddedMergedOf sd dataC), h1,
          bodyOf (paddedMergedOf sd dataC)⟩
      else .halfRenamed (paddedMergedOf sd dataC) := by
  unfold assemble
  rw [if_neg hw, hh]

theorem assemble_headers_big (sd : StatementData) (dataC : List (Nat × List CellV))
    (h0 h1 h2 : List String) (rest : List (List String)) (hw : tableWidth sd ≠ 0)
    (hh : sd.headers = h0 :: h1 :: h2 :: rest) :
    assemble sd dataC = .headerNone := by
  unfold assemble
  rw [if_neg hw, hh]

theorem assemble_success_inv (sd : StatementData) (dataC : List (Nat × List CellV))
    (t : FinalTable) (hs : assemble sd dataC = .success t) :
    tableWidth sd ≠ 0 ∧
    t.rowLabels = labelsOf (paddedMergedOf sd dataC) ∧
    t.body = bodyOf (paddedMergedOf sd dataC) ∧
    ((∃ h0, sd.headers = [h0] ∧ t.columnHeaders = h0.tail ∧
        h0.tail.length = tableWidth sd - 1) ∨
     (∃ h0 h1, sd.headers = [h0, h1] ∧ t.columnHeaders = h1 ∧
        h1.length = tableWidth sd - 1)) := by
  by_cases hw : tableWidth sd = 0
  · rw [assemble_w0 sd dataC hw] at hs; exact absurd hs (by simp)
  rcases hhd : sd.headers with _ | ⟨h0, _ | ⟨h1, _ | ⟨h2, rest⟩⟩⟩
  · rw [assemble_headers_nil sd dataC hhd] at hs; exact absurd hs (by simp)
  · rw [assemble_headers_one sd dataC h0 hw hhd] at hs
    by_cases hlen : h0.tail.length = tableWidth sd - 1
    · rw [if_pos hlen] at hs
      obtain ⟨rfl⟩ := ScrapeResult.success.inj hs
      exact ⟨hw, rfl, rfl, Or.inl ⟨h0, rfl, rfl, hlen⟩⟩
    · rw [if_neg hlen] at hs; exact absurd hs (by simp)
  · rw [assemble_headers_two sd dataC h0 h1 hw hhd] at hs
    by_cases hlen : h1.length = tableWidth sd - 1
    · rw [if_pos hlen] at hs
      obtain ⟨rfl⟩ := ScrapeResult.success.inj hs
      exact ⟨hw, rfl, rfl, Or.inr ⟨h0, h1, rfl, rfl, hlen⟩⟩
    · rw [if_neg hlen] at hs; exact absurd hs (by simp)
  · rw [assemble_headers_big sd dataC h0 h1 h2 rest hw hhd] at hs
    exact absurd hs (by simp)

theorem display_success_inv (doc : List Row) (sd : StatementData) (t : FinalTable)
    (hc : classifyDoc doc = some sd) (hs : display_table doc = .success t) :
    ∃ dataC, (uniformLen sd.data && uniformLen sd.sections) = true ∧
      coerceData sd.data = some dataC ∧ assemble sd dataC = .success t := by
  rw [display_table_eq doc sd hc] at hs
  by_cases hu : (uniformLen sd.data && uniformLen sd.sections) = true
  · rw [if_pos hu] at hs
    rcases hco : coerceData sd.data with _ | dataC <;> rw [hco] at hs
    · exact absurd hs (by simp)
    · exact ⟨dataC, hu, rfl, hs⟩
  · rw [if_neg hu] at hs; exact absurd hs (by simp)

/-! ## Helper lemmas: coercion stage -/

theorem mapO_forall₂ {β γ : Type} (f : β → Option γ) :
    ∀ {l : List β} {out : List γ}, mapO f l = some out →
      List.Forall₂ (fun a b => f a = some b) l out := by
  intro l
  induction l with
  | nil =>
      intro out h
      simp only [mapO, Option.some.injEq] at h
      rw [← h]
      exact .nil
  | cons a l ih =>
      intro out h
      unfold mapO at h
      rcases hfa : f a with _ | b <;> rw [hfa] at h
      · simp at h
      · rcases hml : mapO f l with _ | out' <;> rw [hml] at h
        · simp at h
        · simp only [Option.some.injEq] at h
          rw [← h]
          exact .cons hfa (ih hml)

theorem forall₂_eq_map {β γ : Type} (f : β → Option γ) (d : γ) :
    ∀ {l : List β} {out : List γ},
      List.Forall₂ (fun a b => f a = some b) l out →
      out = l.map (fun a => (f a).getD d) := by
  intro l out h
  induction h with
  | nil => rfl
  | cons hab _ ih =>
      rw [List.map_cons, ← ih, hab]
      rfl

theorem forall₂_mem {β γ : Type} {R : β → γ → Prop} :
    ∀ {l : List β} {out : List γ}, List.Forall₂ R l out →
      ∀ a ∈ l, ∃ b ∈ out, R a b := by
  intro l out h
  induction h with
  | nil => intro a ha; exact absurd ha (List.not_mem_nil a)
  | cons hab _ ih =>
      intro a ha
      rcases List.mem_cons.mp ha with rfl | ha'
      · exact ⟨_, List.mem_cons_self _ _, hab⟩
      · obtain ⟨b, hb, hr⟩ := ih a ha'
        exact ⟨b, List.mem_cons_of_mem _ hb, hr⟩

theorem map_congr_mem {β γ : Type} {f g : β → γ} :
    ∀ {l : List β}, (∀ a ∈ l, f a = g a) → l.map f = l.map g := by
  intro l
  induction l with
  | nil => intro _; rfl
  | cons a l ih =>
      intro h
      simp only [List.map_cons, h a (List.mem_cons_self _ _),
        ih fun b hb => h b (List.mem_cons_of_mem _ hb)]

theorem coerceData_mem_isSome (rows : List (Nat × List String))
    (dataC : List (Nat × List CellV)) (h : coerceData rows = some dataC) :
    ∀ p ∈ rows, ∃ r, coerceRow p.2 = some r := by
  intro p hp
  have h' : mapO (fun p : Nat × List String =>
      (coerceRow p.2).map (fun r => (p.1, r))) rows = some dataC := h
  obtain ⟨b, _, hb⟩ := forall₂_mem (mapO_forall₂ _ h') p hp
  rcases hcr : coerceRow p.2 with _ | r
  · rw [hcr] at hb; simp at hb
  · exact ⟨r, rfl⟩

theorem coerceData_eq (rows : List (Nat × List String))
    (dataC : List (Nat × List CellV)) (h : coerceData rows = some dataC) :
    dataC = rows.map (fun p => (p.1, (coerceRow p.2).getD [])) := by
  have h' : mapO (fun p : Nat × List String =>
      (coerceRow p.2).map (fun r => (p.1, r))) rows = some dataC := h
  have h2 := forall₂_eq_map (fun p : Nat × List String =>
      (coerceRow p.2).map (fun r => (p.1, r)))
    ((0 : Nat), ([] : List CellV)) (mapO_forall₂ _ h')
  rw [h2]
  apply map_congr_mem
  intro p hp
  obtain ⟨r, hcr⟩ := coerceData_mem_isSome rows dataC h p hp
  simp [hcr]

/-! ## Helper lemmas: enumeration and the position-keyed merge -/

theorem enumRows_le (l : List Row) : ∀ (i : Nat), ∀ p ∈ enumRows i l, i ≤ p.1 := by
  induction l with
  | nil => intro i p hp; simp [enumRows] at hp
  | cons r l ih =>
      intro i p hp
      rw [enumRows] at hp
      rcases List.mem_cons.mp hp with rfl | hp'
      · exact Nat.le_refl i
      · exact Nat.le_of_succ_le (ih (i + 1) p hp')

theorem enumRows_pairwise (l : List Row) :
    ∀ i : Nat, (enumRows i l).Pairwise (fun a b => a.1 < b.1) := by
  induction l with
  | nil => intro i; exact .nil
  | cons r l ih =>
      intro i
      rw [enumRows]
      refine List.Pairwise.cons (fun p hp => ?_) (ih (i + 1))
      exact Nat.lt_of_succ_le (enumRows_le l (i + 1) p hp)

theorem enumRows_mem_snd (l : List Row) :
    ∀ (i : Nat), ∀ p ∈ enumRows i l, p.2 ∈ l := by
  induction l with
  | nil => intro i p hp; simp [enumRows] at hp
  | cons r l ih =>
      intro i p hp
      rw [enumRows] at hp
      rcases List.mem_cons.mp hp with rfl | hp'
      · exact List.mem_cons_self _ _
      · exact List.mem_cons_of_mem _ (ih (i + 1) p hp')

theorem filter_split_perm {β γ : Type} (pD pS pN : β → Bool) (u v w : β → γ)
    (hcover : ∀ x, pN x = (pD x || pS x)) (hdisj : ∀ x, pD x = true → pS x = false)
    (hu : ∀ x, pD x = true → u x = w x) (hv : ∀ x, pS x = true → v x = w x) :
    ∀ l : List β,
      ((l.filter pD).map u ++ (l.filter pS).map v).Perm ((l.filter pN).map w) := by
  intro l
  induction l with
  | nil => exact List.Perm.refl _
  | cons x l ih =>
      rw [List.filter_cons, List.filter_cons, List.filter_cons, hcover x]
      cases hD : pD x
      · cases hS : pS x
        · rw [Bool.false_or, if_neg Bool.false_ne_true, if_neg Bool.false_ne_true,
            if_neg Bool.false_ne_true]
          exact ih
        · rw [Bool.false_or, if_neg Bool.false_ne_true, if_pos rfl, if_pos rfl,
            List.map_cons, List.map_cons]
          refine List.Perm.trans List.perm_middle ?_
          rw [hv x hS]
          exact ih.cons _
      · have hS := hdisj x hD
        rw [hS, Bool.true_or, if_pos rfl, if_neg Bool.false_ne_true, if_pos rfl,
          List.map_cons, List.map_cons, List.cons_append]
        rw [hu x hD]
        exact ih.cons _

instance sortKeyTotal {α : Type} :
    IsTotal (Nat × α) (fun a b => a.1 ≤ b.1) := ⟨fun a b => Nat.le_total a.1 b.1⟩

instance sortKeyTrans {α : Type} :
    IsTrans (Nat × α) (fun a b => a.1 ≤ b.1) := ⟨fun _ _ _ h1 h2 => Nat.le_trans h1 h2⟩

theorem sortByKey_perm {α : Type} (l : List (Nat × α)) : (sortByKey l).Perm l :=
  List.perm_insertionSort _ l

theorem sortByKey_sorted {α : Type} (l : List (Nat × α)) :
    (sortByKey l).Sorted (fun a b => a.1 ≤ b.1) :=
  List.sorted_insertionSort _ l

theorem sortByKey_eq_of_perm {α : Type} (l m : List (Nat × α)) (hp : l.Perm m)
    (hm : m.Pairwise (fun a b => a.1 < b.1)) : sortByKey l = m := by
  haveI : IsAntisymm (Nat × α) (fun a b => a.1 < b.1 ∨ a = b) := ⟨by
    rintro a b (h1 | rfl) h2
    · rcases h2 with h2 | rfl
      · exact absurd h2 (Nat.lt_asymm h1)
      · rfl
    · rfl⟩
  have hperm : (sortByKey l).Perm m := (sortByKey_perm l).trans hp
  have hne : (sortByKey l).Pairwise (fun a b => a.1 ≠ b.1) := by
    exact (List.Perm.pairwise_iff (fun h => Ne.symm h) hperm).mpr
      (hm.imp fun h => Nat.ne_of_lt h)
  have s1 : (sortByKey l).Pairwise (fun a b => a.1 < b.1 ∨ a = b) :=
    ((sortByKey_sorted l).and hne).imp fun h =>
      Or.inl (Nat.lt_of_le_of_ne h.1 h.2)
  have s2 : m.Pairwise (fun a b => a.1 < b.1 ∨ a = b) := hm.imp fun h => Or.inl h
  exact List.eq_of_perm_of_sorted hperm s1 s2

theorem mergedRowsOf_eq (doc : List Row) (sd : StatementData)
    (dataC : List (Nat × List CellV)) (hc : classifyDoc doc = some sd)
    (hco : coerceData sd.data = some dataC) :
    mergedRowsOf sd dataC = (nonHeaderRows doc).map (fun p => (p.1, cellsOfRow p.2)) := by
  obtain ⟨_, hS, hD⟩ := classifyDoc_inv doc sd hc
  have hdc := coerceData_eq _ _ hco
  unfold mergedRowsOf nonHeaderRows
  apply sortByKey_eq_of_perm
  · rw [hdc, hD, hS, List.map_map, List.map_map]
    refine filter_split_perm isDataRow isSecRow (fun p => p.2.ths.isEmpty)
      _ _ (fun p => (p.1, cellsOfRow p.2)) ?_ ?_ ?_ ?_ (enumRows 0 doc)
    · intro x
      unfold isDataRow isSecRow
      cases hb : x.2.ths.isEmpty <;> cases hs : x.2.strong <;> simp [hb, hs]
    · intro x hx
      unfold isDataRow at hx
      unfold isSecRow
      simp only [Bool.and_eq_true] at hx
      obtain ⟨_, hns⟩ := hx
      rw [Bool.not_eq_true'] at hns
      rw [hns]
      exact Bool.and_false _
    · intro x hx
      unfold isDataRow at hx
      simp only [Bool.and_eq_true] at hx
      obtain ⟨_, hns⟩ := hx
      rw [Bool.not_eq_true'] at hns
      show (x.1, (coerceRow x.2.tds).getD []) = (x.1, cellsOfRow x.2)
      rw [cellsOfRow, if_neg (by rw [hns]; exact Bool.false_ne_true)]
    · intro x hx
      unfold isSecRow at hx
      simp only [Bool.and_eq_true] at hx
      obtain ⟨_, hs⟩ := hx
      show (x.1, x.2.tds.map CellV.str) = (x.1, cellsOfRow x.2)
      rw [cellsOfRow, if_pos hs]
  · refine List.pairwise_map.mpr ?_
    exact List.Pairwise.sublist (List.filter_sublist _) (enumRows_pairwise doc 0)

theorem ths_isEmpty_eq_or (x : Nat × Row) :
    x.2.ths.isEmpty = (isDataRow x || isSecRow x) := by
  unfold isDataRow isSecRow
  cases hb : x.2.ths.isEmpty <;> cases hs : x.2.strong <;> simp [hb, hs]

theorem isDataRow_not_isSecRow (x : Nat × Row) (hx : isDataRow x = true) :
    isSecRow x = false := by
  unfold isDataRow at hx
  unfold isSecRow
  simp only [Bool.and_eq_true] at hx
  obtain ⟨_, hns⟩ := hx
  rw [Bool.not_eq_true'] at hns
  rw [hns]
  exact Bool.and_false _

theorem coerceRow_cons (c0 : String) (rest : List String) (out : List CellV)
    (h : coerceRow (c0 :: rest) = some out) :
    ∃ tl, mapO (fun s => (coerceCell s).map CellV.num) rest = some tl ∧
      out = CellV.str c0 :: tl := by
  have h2 : (mapO (fun s => (coerceCell s).map CellV.num) rest).map
      (fun tl => CellV.str c0 :: tl) = some out := h
  rcases hml : mapO (fun s => (coerceCell s).map CellV.num) rest with _ | tl <;>
    rw [hml] at h2
  · exact absurd h2 (by simp)
  · simp only [Option.map_some', Option.some.injEq] at h2
    exact ⟨tl, rfl, h2.symm⟩

theorem label_padded (w : Nat) (hw : w ≠ 0) (r : Row)
    (hsome : r.strong = false → ∃ out, coerceRow r.tds = some out) :
    (padRow w (cellsOfRow r)).headD (.num .missing) = labelOf r.tds := by
  rcases htds : r.tds with _ | ⟨c0, rest⟩
  · have hcells : cellsOfRow r = [] := by
      unfold cellsOfRow
      rw [htds]
      split <;> rfl
    rw [hcells]
    unfold padRow labelOf
    rcases w with _ | w'
    · exact absurd rfl hw
    · simp [List.replicate_succ]
  · have hcells : ∃ tl, cellsOfRow r = CellV.str c0 :: tl := by
      unfold cellsOfRow
      cases hstr : r.strong
      · obtain ⟨out, hout⟩ := hsome hstr
        rw [htds] at hout
        obtain ⟨tl, _, rfl⟩ := coerceRow_cons c0 rest out hout
        rw [htds, hout]
        exact ⟨tl, rfl⟩
      · rw [htds]
        exact ⟨rest.map CellV.str, rfl⟩
    obtain ⟨tl, hcl⟩ := hcells
    rw [hcl]
    rfl

/-! ## Claims -/

/-- C1: the split of the document's non-header rows into a data bucket and
a section bucket keyed by row position, followed by the re-merge and
position sort, restores exactly the input order; consequently the row
labels of a successfully assembled FinalTable appear in original document
row order. -/
theorem claim_C1_order_restoration :
    (∀ (doc : List Row) (sd : StatementData), classifyDoc doc = some sd →
      (∀ r ∈ doc, r.ths = []) →
      sortByKey (sd.data ++ sd.sections) =
        (enumRows 0 doc).map (fun p => (p.1, p.2.tds))) ∧
    (∀ (doc : List Row) (t : FinalTable), display_table doc = .success t →
      t.rowLabels = (nonHeaderRows doc).map (fun p => labelOf p.2.tds)) := by
  constructor
  · intro doc sd hc hnh
    obtain ⟨_, hS, hD⟩ := classifyDoc_inv doc sd hc
    rw [hD, hS]
    apply sortByKey_eq_of_perm
    · have hfil : (enumRows 0 doc).filter (fun p => p.2.ths.isEmpty) =
          enumRows 0 doc :=
        List.filter_eq_self.mpr (fun p hp => by
          rw [show p.2.ths = [] from hnh p.2 (enumRows_mem_snd doc 0 p hp)]
          rfl)
      have hperm := filter_split_perm isDataRow isSecRow
        (fun p => p.2.ths.isEmpty) (fun p => (p.1, p.2.tds))
        (fun p => (p.1, p.2.tds)) (fun p => (p.1, p.2.tds))
        ths_isEmpty_eq_or isDataRow_not_isSecRow (fun _ _ => rfl) (fun _ _ => rfl)
        (enumRows 0 doc)
      rw [hfil] at hperm
      exact hperm
    · exact List.pairwise_map.mpr (enumRows_pairwise doc 0)
  · intro doc t hs
    have hc := classifyDoc_eq doc
    obtain ⟨dataC, _, hco, hat⟩ := display_success_inv doc _ t hc hs
    obtain ⟨hw, hlab, _, _⟩ := assemble_success_inv _ dataC t hat
    rw [hlab]
    unfold labelsOf paddedMergedOf
    rw [mergedRowsOf_eq doc _ dataC hc hco, List.map_map, List.map_map]
    apply map_congr_mem
    intro p hp
    show (padRow (tableWidth _) (cellsOfRow p.2)).headD (.num .missing) =
      labelOf p.2.tds
    apply label_padded _ hw
    intro hstr
    have hmem := List.mem_filter.mp hp
    have hd : isDataRow p = true := by
      unfold isDataRow
      rw [hmem.2, hstr]
      rfl
    exact coerceData_mem_isSome _ dataC hco (p.1, p.2.tds)
      (List.mem_map.mpr ⟨p, List.mem_filter.mpr ⟨hmem.1, hd⟩, rfl⟩)

/-- C1 (witness): the order-restoration parts at concrete documents. -/
theorem claim_C1_witness :
    sortByKey ([((0 : Nat), ["a", "1"]), (2, ["b", "2"])] ++ [((1 : Nat), ["s:"])]) =
      [(0, ["a", "1"]), (1, ["s:"]), (2, ["b", "2"])] ∧
    (⟨" - FY2021", [.str "Net sales", .str "Operating expenses:"], ["FY2021"],
        [[.num (.val 100)], [.num .missing]]⟩ : FinalTable).rowLabels =
      (nonHeaderRows [⟨[], ["", "FY2021"], false⟩, ⟨[], ["FY2021"], false⟩,
        ⟨["Net sales", "$100"], [], false⟩,
        ⟨["Operating expenses:"], [], true⟩]).map (fun p => labelOf p.2.tds) := by
  constructor
  · have h := claim_C1_order_restoration.1
      [⟨["a", "1"], [], false⟩, ⟨["s:"], [], true⟩, ⟨["b", "2"], [], false⟩]
      ⟨[], [(1, ["s:"])], [(0, ["a", "1"]), (2, ["b", "2"])]⟩ (by decide) (by decide)
    exact h.trans (by decide)
  · exact claim_C1_order_restoration.2
      [⟨[], ["", "FY2021"], false⟩, ⟨[], ["FY2021"], false⟩,
        ⟨["Net sales", "$100"], [], false⟩, ⟨["Operating expenses:"], [], true⟩]
      ⟨" - FY2021", [.str "Net sales", .str "Operating expenses:"], ["FY2021"],
        [[.num (.val 100)], [.num .missing]]⟩ (by decide)

/-- C3 (counterexample): a document with 0 header rows does not take the
header-layout failure branch: the title join raises first, the renaming
`except` catches it, and the half-processed merged table is returned. -/
theorem claim_C3_counterexample :
    display_table [⟨["Net sales", "$100"], [], false⟩,
        ⟨["Operating expenses:"], [], true⟩] =
      .halfRenamed [(0, [.str "Net sales", .num (.val 100)]),
        (1, [.str "Operating expenses:", .num .missing])] ∧
    display_table [⟨["Net sales", "$100"], [], false⟩,
        ⟨["Operating expenses:"], [], true⟩] ≠ .headerNone :=
  ⟨by decide, by decide⟩

/-- C3 (amended): on a successfully assembled table, exactly 2 captured
header rows make the second row the columnHeaders and exactly 1 makes that
row minus its first cell the columnHeaders; 3 or more header rows take the
header-framing failure branch (the `None` return); 0 header rows return
the half-processed merged table via the renaming `except`, not the
header-layout failure. -/
theorem claim_C3_header_arity (doc : List Row) (sd : StatementData)
    (hc : classifyDoc doc = some sd) :
    (∀ t h0 h1, display_table doc = .success t → sd.headers = [h0, h1] →
      t.columnHeaders = h1) ∧
    (∀ t h0, display_table doc = .success t → sd.headers = [h0] →
      t.columnHeaders = h0.tail) ∧
    (∀ dataC, (uniformLen sd.data && uniformLen sd.sections) = true →
      coerceData sd.data = some dataC → sd.headers = [] →
      display_table doc = .halfRenamed (paddedMergedOf sd dataC)) ∧
    (∀ dataC h0 h1 h2 rest, (uniformLen sd.data && uniformLen sd.sections) = true →
      coerceData sd.data = some dataC → sd.headers = h0 :: h1 :: h2 :: rest →
      tableWidth sd ≠ 0 → display_table doc = .headerNone) := by
  refine ⟨?_, ?_, ?_, ?_⟩
  · intro t h0 h1 hs hh
    obtain ⟨dataC, _, _, hat⟩ := display_success_inv doc sd t hc hs
    obtain ⟨_, _, _, harm⟩ := assemble_success_inv sd dataC t hat
    rcases harm with ⟨h0', hh', _, _⟩ | ⟨h0', h1', hh', hch, _⟩
    · rw [hh] at hh'
      simp at hh'
    · rw [hh] at hh'
      simp only [List.cons.injEq, and_true] at hh'
      rw [hch]
      exact hh'.2.symm
  · intro t h0 hs hh
    obtain ⟨dataC, _, _, hat⟩ := display_success_inv doc sd t hc hs
    obtain ⟨_, _, _, harm⟩ := assemble_success_inv sd dataC t hat
    rcases harm with ⟨h0', hh', hch, _⟩ | ⟨h0', h1', hh', _, _⟩
    · rw [hh] at hh'
      simp only [List.cons.injEq, and_true] at hh'
      rw [hch, hh']
    · rw [hh] at hh'
      simp at hh'
  · intro dataC hu hco hh
    rw [display_table_eq doc sd hc, if_pos hu, hco]
    exact assemble_headers_nil sd dataC hh
  · intro dataC h0 h1 h2 rest hu hco hh hw
    rw [display_table_eq doc sd hc, if_pos hu, hco]
    exact assemble_headers_big sd dataC h0 h1 h2 rest hw hh

/-- C3 (witness): the amended claim's 2-header success arm and 3-header
failure arm at concrete documents. -/
theorem claim_C3_witness :
    (⟨" - FY2021", [.str "Net sales", .str "Operating expenses:"], ["FY2021"],
        [[.num (.val 100)], [.num .missing]]⟩ : FinalTable).columnHeaders =
      ["FY2021"] ∧
    display_table [⟨[], ["a"], false⟩, ⟨[], ["b"], false⟩, ⟨[], ["c"], false⟩,
        ⟨["x", "1"], [], false⟩] = .headerNone := by
  constructor
  · exact (claim_C3_header_arity
      [⟨[], ["", "FY2021"], false⟩, ⟨[], ["FY2021"], false⟩,
        ⟨["Net sales", "$100"], [], false⟩, ⟨["Operating expenses:"], [], true⟩]
      ⟨[["", "FY2021"], ["FY2021"]], [(3, ["Operating expenses:"])],
        [(2, ["Net sales", "$100"])]⟩ (by decide)).1
      ⟨" - FY2021", [.str "Net sales", .str "Operating expenses:"], ["FY2021"],
        [[.num (.val 100)], [.num .missing]]⟩
      ["", "FY2021"] ["FY2021"] (by decide) rfl
  · exact (claim_C3_header_arity
      [⟨[], ["a"], false⟩, ⟨[], ["b"], false⟩, ⟨[], ["c"], false⟩,
        ⟨["x", "1"], [], false⟩]
      ⟨[["a"], ["b"], ["c"]], [], [(3, ["x", "1"])]⟩ (by decide)).2.2.2
      [((3 : Nat), [CellV.str "x", CellV.num (.val 1)])] ["a"] ["b"] ["c"] []
      (by decide) (by decide) rfl (by decide)

/-- C9: the normalization stage touches only data-row cells at column
index 1 and greater: every data row keeps its column-0 label text
unchanged in the coerced bucket, and every section row reaches the merged
frame with all of its cells as the original raw strings. -/
theorem claim_C9_frame_effect (doc : List Row) (sd : StatementData)
    (dataC : List (Nat × List CellV)) (_hc : classifyDoc doc = some sd)
    (hco : coerceData sd.data = some dataC) :
    (∀ i cs, (i, cs) ∈ sd.data → ∀ c0 rest, cs = c0 :: rest →
      ∃ tl, (i, CellV.str c0 :: tl) ∈ dataC) ∧
    (∀ i cs, (i, cs) ∈ sd.sections →
      (i, cs.map CellV.str) ∈ mergedRowsOf sd dataC) := by
  constructor
  · intro i cs hmem c0 rest hcs
    subst hcs
    obtain ⟨r, hr⟩ := coerceData_mem_isSome sd.data dataC hco (i, c0 :: rest) hmem
    obtain ⟨tl, _, rfl⟩ := coerceRow_cons c0 rest r hr
    refine ⟨tl, ?_⟩
    rw [coerceData_eq _ _ hco]
    refine List.mem_map.mpr ⟨(i, c0 :: rest), hmem, ?_⟩
    show (i, (coerceRow (c0 :: rest)).getD []) = (i, CellV.str c0 :: tl)
    rw [hr]
    rfl
  · intro i cs hmem
    have h1 : (i, cs.map CellV.str) ∈
        sd.sections.map (fun p => (p.1, p.2.map CellV.str)) :=
      List.mem_map.mpr ⟨(i, cs), hmem, rfl⟩
    unfold mergedRowsOf
    exact ((sortByKey_perm _).mem_iff).mpr (List.mem_append_right _ h1)

theorem get_table_info_eq (url lst : List Char)
    (entries : List (List Char × List Char))
    (h : (segMatches url).getLast? = some lst) :
    get_table_info url entries =
      if entries.dropLast.isEmpty then none
      else some (entries.dropLast.map
        (fun e => (e.1, replaceAll url lst ('/' :: e.2)))) := by
  unfold get_table_info
  rw [h]

/-- C6 (counterexample): on a single-entry index the claim predicts a
successful return of 0 pairs, but `reports.find_all('report')[:-1]` is
empty, so `pd.DataFrame([])` has no `name_short` column and line 203
raises an uncaught `KeyError` — the resolver crashes instead of returning
an empty pair list. -/
theorem claim_C6_counterexample :
    get_table_info "https://a.b/c/R9.htm".data
      [("Cover".data, "R1.htm".data)] = none ∧
    get_table_info "https://a.b/c/R9.htm".data
      [("Cover".data, "R1.htm".data)] ≠ some [] :=
  ⟨by decide, by decide⟩

/-- C6 (amended): on an index document with N ≥ 2 entries (and a URL with
at least one path-segment match) the resolver returns exactly N-1
(name, url) pairs — the last entry is always dropped and every other
entry contributes exactly one pair, in document order; with exactly 1
entry the dropped-last list is empty and the resolver crashes
(`KeyError('name_short')` at line 203) rather than returning 0 pairs. -/
theorem claim_C6_index_count (url : List Char)
    (entries : List (List Char × List Char)) (hu : segMatches url ≠ []) :
    (2 ≤ entries.length →
      ∃ out, get_table_info url entries = some out ∧
        out.length = entries.length - 1 ∧
        out.map Prod.fst = (entries.map Prod.fst).dropLast) ∧
    (entries.length = 1 → get_table_info url entries = none) := by
  obtain ⟨lst, hlst⟩ := Option.isSome_iff_exists.mp (List.getLast?_isSome.mpr hu)
  constructor
  · intro hN
    have hempty : entries.dropLast.isEmpty = false := by
      rcases hdl : entries.dropLast with _ | ⟨e, l⟩
      · exfalso
        have hlen := List.length_dropLast entries
        rw [hdl] at hlen
        simp only [List.length_nil] at hlen
        omega
      · rfl
    refine ⟨entries.dropLast.map (fun e => (e.1, replaceAll url lst ('/' :: e.2))),
      ?_, ?_, ?_⟩
    · rw [get_table_info_eq url lst entries hlst,
        if_neg (by rw [hempty]; exact Bool.false_ne_true)]
    · rw [List.length_map, List.length_dropLast]
    · rw [List.map_map]
      exact (map_congr_mem fun a _ => rfl).trans (List.map_dropLast _ _)
  · intro h1
    have hdl : entries.dropLast = [] := by
      rcases entries with _ | ⟨a, _ | ⟨b, l⟩⟩
      · rfl
      · rfl
      · exfalso
        rw [List.length_cons, List.length_cons] at h1
        omega
    have hni : ([] : List (List Char × List Char)).isEmpty = true := rfl
    rw [get_table_info_eq url lst entries hlst, hdl, if_pos hni]

/-- C6 (witness): the amended claim at a concrete 3-entry index (success
with 2 pairs) and at a concrete 1-entry index (crash). -/
theorem claim_C6_witness :
    (∃ out, get_table_info "https://a.b/c/R9.htm".data
        [("Cover".data, "R1.htm".data), ("Ops".data, "R2.htm".data),
         ("junk".data, "RX.htm".data)] = some out ∧
      out.length = 2 ∧
      out.map Prod.fst = ["Cover".data, "Ops".data]) ∧
    get_table_info "https://a.b/d/R9.htm".data
      [("Solo".data, "R1.htm".data)] = none := by
  constructor
  · obtain ⟨out, h1, h2, h3⟩ := (claim_C6_index_count "https://a.b/c/R9.htm".data
      [("Cover".data, "R1.htm".data), ("Ops".data, "R2.htm".data),
       ("junk".data, "RX.htm".data)] (by decide)).1 (by decide)
    exact ⟨out, h1, h2, h3.trans (by decide)⟩
  · exact (claim_C6_index_count "https://a.b/d/R9.htm".data
      [("Solo".data, "R1.htm".data)] (by decide)).2 rfl

/-! ## Helper lemmas: URL derivation -/

theorem segMatchesF_nil : ∀ f : Nat, segMatchesF f [] = [] := by
  intro f
  cases f <;> rfl

theorem replaceAllF_nil (pat repl : List Char) :
    ∀ f : Nat, replaceAllF pat repl f [] = [] := by
  intro f
  cases f <;> rfl

theorem takeWhile_eq_self {p : Char → Bool} :
    ∀ l : List Char, (∀ c ∈ l, p c = true) → l.takeWhile p = l := by
  intro l h
  induction l with
  | nil => rfl
  | cons c l ih =>
      rw [List.takeWhile_cons, h c (List.mem_cons_self _ _), if_pos rfl,
        ih fun b hb => h b (List.mem_cons_of_mem _ hb)]

theorem dropWhile_eq_nil {p : Char → Bool} :
    ∀ l : List Char, (∀ c ∈ l, p c = true) → l.dropWhile p = [] := by
  intro l h
  induction l with
  | nil => rfl
  | cons c l ih =>
      rw [List.dropWhile_cons, h c (List.mem_cons_self _ _), if_pos rfl]
      exact ih fun b hb => h b (List.mem_cons_of_mem _ hb)

theorem dropWhile_append_slash (a tail : List Char) :
    (a ++ '/' :: tail).dropWhile (fun x => x ≠ '/') =
      a.dropWhile (fun x => x ≠ '/') ++ '/' :: tail := by
  induction a with
  | nil => rfl
  | cons c a ih =>
      rw [List.cons_append, List.dropWhile_cons, List.dropWhile_cons]
      by_cases hc : c = '/'
      · subst hc
        rw [if_neg (by simp), if_neg (by simp), List.cons_append]
      · have hd : (decide (c ≠ '/')) = true := by simp [hc]
        rw [if_pos hd, if_pos hd]
        exact ih

theorem getLast?_cons_ne_nil {α : Type} (a : α) {l : List α} (h : l ≠ []) :
    (a :: l).getLast? = l.getLast? := by
  rcases l with _ | ⟨b, l⟩
  · exact absurd rfl h
  · exact List.getLast?_cons_cons

theorem isPrefixOf_self (l : List Char) : l.isPrefixOf l = true := by
  induction l with
  | nil => rfl
  | cons c l ih => simp [List.isPrefixOf, ih]

theorem segMatchesF_cons_slash (f : Nat) (rest : List Char) :
    segMatchesF (f + 1) ('/' :: rest) =
      if (rest.takeWhile (fun x => x ≠ '/')).isEmpty then segMatchesF f rest
      else ('/' :: rest.takeWhile (fun x => x ≠ '/')) ::
        segMatchesF f (rest.dropWhile (fun x => x ≠ '/')) := rfl

theorem segMatchesF_cons_other (f : Nat) (c : Char) (rest : List Char)
    (hc : ¬c = '/') :
    segMatchesF (f + 1) (c :: rest) = segMatchesF f rest := by
  simp only [segMatchesF, if_neg hc]

theorem segMatchesF_shape (seg : List Char) (h1 : seg ≠ [])
    (h2 : ∀ c ∈ seg, c ≠ '/') :
    ∀ f : Nat, ∀ pre : List Char, (pre ++ '/' :: seg).length ≤ f →
      segMatchesF f (pre ++ '/' :: seg) ≠ [] ∧
      (segMatchesF f (pre ++ '/' :: seg)).getLast? = some ('/' :: seg) := by
  intro f
  induction f with
  | zero =>
      intro pre hlen
      exfalso
      rw [List.length_append, List.length_cons] at hlen
      omega
  | succ f ih =>
      intro pre hlen
      have htw : seg.takeWhile (fun x => x ≠ '/') = seg :=
        takeWhile_eq_self seg fun c hc => decide_eq_true (h2 c hc)
      have hdw : seg.dropWhile (fun x => x ≠ '/') = [] :=
        dropWhile_eq_nil seg fun c hc => decide_eq_true (h2 c hc)
      have hnem : seg.isEmpty = false := by
        cases seg
        · exact absurd rfl h1
        · rfl
      rcases pre with _ | ⟨c, pre'⟩
      · rw [List.nil_append]
        rw [segMatchesF_cons_slash, htw, hdw, hnem]
        rw [if_neg Bool.false_ne_true, segMatchesF_nil]
        exact ⟨by simp, rfl⟩
      · rw [List.cons_append] at hlen ⊢
        rw [List.length_cons] at hlen
        by_cases hc : c = '/'
        · subst hc
          rw [segMatchesF_cons_slash]
          rcases htw0 : ((pre' ++ '/' :: seg).takeWhile (fun x => x ≠ '/')) with
              _ | ⟨a, sg⟩
          · have hni : ([] : List Char).isEmpty = true := rfl
            rw [if_pos hni]
            exact ih pre' (Nat.le_of_succ_le_succ hlen)
          · rw [if_neg (by simp)]
            rw [dropWhile_append_slash pre' seg]
            have hlen2 : ((pre'.dropWhile (fun x => x ≠ '/')) ++ '/' :: seg).length ≤ f := by
              rw [List.length_append, List.length_cons]
              rw [List.length_append, List.length_cons] at hlen
              have hsub : (pre'.dropWhile (fun x => decide (x ≠ '/'))).length ≤
                  pre'.length := (List.dropWhile_sublist _).length_le
              omega
            obtain ⟨hne, hlast⟩ := ih (pre'.dropWhile (fun x => x ≠ '/')) hlen2
            refine ⟨by simp, ?_⟩
            rw [getLast?_cons_ne_nil _ hne]
            exact hlast
        · rw [segMatchesF_cons_other f c _ hc]
          exact ih pre' (Nat.le_of_succ_le_succ hlen)

theorem segMatches_last (pre seg : List Char) (h1 : seg ≠ [])
    (h2 : ∀ c ∈ seg, c ≠ '/') :
    (segMatches (pre ++ '/' :: seg)).getLast? = some ('/' :: seg) :=
  (segMatchesF_shape seg h1 h2 _ pre (Nat.le_refl _)).2

theorem replaceAllF_no_overlap (pat repl : List Char) (hpat : pat ≠ []) :
    ∀ pre : List Char, ∀ f : Nat, (pre ++ pat).length ≤ f →
      (∀ s ∈ pre.tails, s ≠ [] → pat.isPrefixOf (s ++ pat) = false) →
      replaceAllF pat repl f (pre ++ pat) = pre ++ repl := by
  intro pre
  induction pre with
  | nil =>
      intro f hlen hocc
      rcases pat with _ | ⟨p, ps⟩
      · exact absurd rfl hpat
      rcases f with _ | f'
      · rw [List.nil_append, List.length_cons] at hlen
        omega
      rw [List.nil_append]
      simp only [replaceAllF]
      rw [if_pos (by rw [isPrefixOf_self]; rfl)]
      rw [List.length_cons, Nat.succ_sub_one, List.drop_length, replaceAllF_nil,
        List.append_nil, List.nil_append]
  | cons a pre' ih =>
      intro f hlen hocc
      rcases f with _ | f'
      · rw [List.cons_append, List.length_cons] at hlen
        omega
      rw [List.cons_append]
      simp only [replaceAllF]
      have hnp : pat.isPrefixOf (a :: (pre' ++ pat)) = false := by
        have := hocc (a :: pre') ((List.mem_tails _ _).mpr (List.suffix_refl _))
          (by simp)
        rw [List.cons_append] at this
        exact this
      rw [if_neg (by rw [hnp, Bool.and_false]; exact Bool.false_ne_true)]
      rw [List.cons_append, List.length_cons] at hlen
      rw [ih f' (Nat.le_of_succ_le_succ hlen) fun s hs hsne =>
        hocc s ((List.mem_tails _ _).mpr (((List.mem_tails _ _).mp hs).trans
          (List.suffix_cons a pre'))) hsne]
      rfl

theorem replaceAll_no_overlap (pre pat repl : List Char) (hpat : pat ≠ [])
    (hocc : ∀ s ∈ pre.tails, s ≠ [] → pat.isPrefixOf (s ++ pat) = false) :
    replaceAll (pre ++ pat) pat repl = pre ++ repl :=
  replaceAllF_no_overlap pat repl hpat pre _ (Nat.le_refl _) hocc

/-- C8 (counterexample): Python `str.replace` replaces every occurrence of
the last-segment substring, so on a URL whose last segment recurs earlier
the derived index URL differs from the spec's
replace-only-the-last-path-segment result: the earlier occurrence is
rewritten too. -/
theorem claim_C8_counterexample :
    xml_summary_of "https://s/ab/ab".data =
      some "https://s/FilingSummary.xml/FilingSummary.xml".data ∧
    xml_summary_of "https://s/ab/ab".data ≠
      some (replaceLastSegmentSpec "https://s/ab/ab".data FilingSummarySeg) :=
  ⟨by decide, by decide⟩

/-- C8 (amended): when the slash-prefixed last path segment occurs in the
statement URL only as its trailing segment, the resolver derives the
filing-summary URL by replacing exactly that last segment with the fixed
index filename — and each table URL by substituting the table's filename
for it — leaving every other part of the URL unchanged; in general the
source replaces every occurrence of the substring. -/
theorem claim_C8_url_derivation (pre seg : List Char) (h1 : seg ≠ [])
    (h2 : ∀ c ∈ seg, c ≠ '/')
    (h3 : ∀ s ∈ pre.tails, s ≠ [] →
      ('/' :: seg).isPrefixOf (s ++ '/' :: seg) = false) :
    xml_summary_of (pre ++ '/' :: seg) = some (pre ++ FilingSummarySeg) ∧
    (∀ entries : List (List Char × List Char), entries.dropLast ≠ [] →
      get_table_info (pre ++ '/' :: seg) entries =
        some (entries.dropLast.map (fun e => (e.1, pre ++ '/' :: e.2)))) := by
  have hlast := segMatches_last pre seg h1 h2
  constructor
  · unfold xml_summary_of
    rw [hlast]
    simp only [Option.map_some', Option.some.injEq]
    exact replaceAll_no_overlap pre ('/' :: seg) FilingSummarySeg (by simp) h3
  · intro entries hN
    have hempty : entries.dropLast.isEmpty = false := by
      rcases hdl : entries.dropLast with _ | ⟨e, l⟩
      · exact absurd hdl hN
      · rfl
    rw [get_table_info_eq _ ('/' :: seg) entries hlast,
      if_neg (by rw [hempty]; exact Bool.false_ne_true)]
    simp only [Option.some.injEq]
    apply map_congr_mem
    intro e _
    rw [replaceAll_no_overlap pre ('/' :: seg) ('/' :: e.2) (by simp) h3]

/-- C8 (witness): the amended claim at a concrete statement URL and
2-entry index. -/
theorem claim_C8_witness :
    xml_summary_of ("https://x.y/d1".data ++ '/' :: "R2.htm".data) =
      some ("https://x.y/d1".data ++ FilingSummarySeg) ∧
    get_table_info ("https://x.y/d1".data ++ '/' :: "R2.htm".data)
        [("a".data, "f1.htm".data), ("b".data, "f2.htm".data)] =
      some [("a".data, "https://x.y/d1".data ++ '/' :: "f1.htm".data)] := by
  have h := claim_C8_url_derivation "https://x.y/d1".data "R2.htm".data
    (by decide) (by decide) (by decide)
  exact ⟨h.1, (h.2 [("a".data, "f1.htm".data), ("b".data, "f2.htm".data)]
    (by decide)).trans (by decide)⟩

/-- C9 (witness): the frame-effect claim at a concrete document with one
data row and one section row. -/
theorem claim_C9_witness :
    (∃ tl, ((1 : Nat), CellV.str "Lbl" :: tl) ∈
      [((1 : Nat), [CellV.str "Lbl", CellV.num (.val 1)])]) ∧
    ((2 : Nat), ["Sec:", "x"].map CellV.str) ∈
      mergedRowsOf ⟨[["h"]], [(2, ["Sec:", "x"])], [(1, ["Lbl", "$1"])]⟩
        [((1 : Nat), [CellV.str "Lbl", CellV.num (.val 1)])] := by
  have h := claim_C9_frame_effect
    [⟨[], ["h"], false⟩, ⟨["Lbl", "$1"], [], false⟩, ⟨["Sec:", "x"], [], true⟩]
    ⟨[["h"]], [(2, ["Sec:", "x"])], [(1, ["Lbl", "$1"])]⟩
    [((1 : Nat), [CellV.str "Lbl", CellV.num (.val 1)])] (by decide) (by decide)
  exact ⟨h.1 1 ["Lbl", "$1"] (by decide) "Lbl" ["$1"] rfl,
    h.2 2 ["Sec:", "x"] (by decide)⟩

/-- C2: the numeric normalizer coerces the cell text "$1,234.50" to the
number 1234.50, "(56.0)" to -56.0, "$(1,234)" to -1234, and the empty
string to the explicit missing-value marker, never leaving a bare empty
string. -/
theorem claim_C2_normalizer_canonical_forms :
    coerceCell "$1,234.50" = some (.val (1234.5 : ℚ)) ∧
    coerceCell "(56.0)" = some (.val (-56.0 : ℚ)) ∧
    coerceCell "" = some .missing ∧
    coerceCell "$(1,234)" = some (.val (-1234 : ℚ)) := by
  refine ⟨?_, ?_, by decide, ?_⟩
  · have h : coerceCell "$1,234.50" = some (.val (mkRat 2469 2)) := by decide
    rw [h]
    simp only [Option.some.injEq, NumCell.val.injEq]
    norm_num
  · have h : coerceCell "(56.0)" = some (.val (mkRat (-56) 1)) := by decide
    rw [h]
    simp only [Option.some.injEq, NumCell.val.injEq]
    norm_num
  · have h : coerceCell "$(1,234)" = some (.val (mkRat (-1234) 1)) := by decide
    rw [h]
    simp only [Option.some.injEq, NumCell.val.injEq]
    norm_num

/-- C4 (counterexample): a concrete row carrying both a header-tagged cell
and a strong-styled cell is placed in the header bucket, and the scrape
does not report the classification failure the claim requires — the
unreachable `else` of the classification chain never fires. -/
theorem claim_C4_counterexample :
    classifyDoc [⟨["x"], ["h"], true⟩] = some ⟨[["h"]], [], []⟩ ∧
    display_table [⟨["x"], ["h"], true⟩] ≠ .classifyNone :=
  ⟨by decide, by decide⟩

/-- C4 (amended): a row containing at least one th cell is classified as a
header row regardless of emphasis styling, and no input ever produces the
row-classification failure result (the source's `else` branch is dead
code). -/
theorem claim_C4_both_markers_header :
    (∀ r : Row, r.ths ≠ [] → r.strong = true → classifyRow r = some .header) ∧
    (∀ doc : List Row, display_table doc ≠ .classifyNone) := by
  constructor
  · intro r h1 _
    rw [classifyRow_eq_some]
    have h2 : r.ths.isEmpty = false := by
      cases hth : r.ths with
      | nil => exact absurd hth h1
      | cons a l => rfl
    rw [h2]
    rfl
  · exact display_table_ne_classifyNone

/-- C4 (witness): the amended claim at a concrete row and document. -/
theorem claim_C4_witness :
    classifyRow ⟨["y"], ["hd"], true⟩ = some .header ∧
    display_table [⟨["y"], ["hd"], true⟩, ⟨["d", "1"], [], false⟩] ≠ .classifyNone :=
  ⟨claim_C4_both_markers_header.1 ⟨["y"], ["hd"], true⟩ (by decide) rfl,
   claim_C4_both_markers_header.2 _⟩

/-- C5 (counterexample): a failing numeric coercion returns the
half-processed data bucket (a partial table), and a failing DataFrame
construction returns a bare `None`-style result — the caller never sees a
tagged failure value, contradicting the claim. -/
theorem claim_C5_counterexample :
    display_table [⟨[], ["h"], false⟩, ⟨["y", "zz"], [], false⟩] =
      .halfCoerced [(1, ["y", "zz"])] ∧
    display_table [⟨["a"], [], false⟩, ⟨["b", "1"], [], false⟩] = .dfNone :=
  ⟨by decide, by decide⟩

/-- C5 (amended): on a DataFrame-construction failure `display_table`
returns the bare failure `None`; on a coercion failure it returns the
half-processed data bucket (with the string-replacement assignment already
applied); on a renaming failure with no captured header row it returns the
half-processed merged table — the source trades tagged failures for
partial returns and `None`. -/
theorem claim_C5_partial_returns (doc : List Row) (sd : StatementData)
    (hc : classifyDoc doc = some sd) :
    ((uniformLen sd.data && uniformLen sd.sections) = false →
      display_table doc = .dfNone) ∧
    ((uniformLen sd.data && uniformLen sd.sections) = true →
      coerceData sd.data = none →
      display_table doc = .halfCoerced (sd.data.map (fun p => (p.1, normRowTail p.2)))) ∧
    (∀ dataC, (uniformLen sd.data && uniformLen sd.sections) = true →
      coerceData sd.data = some dataC → sd.headers = [] →
      display_table doc = .halfRenamed (paddedMergedOf sd dataC)) := by
  refine ⟨fun hu => ?_, fun hu hco => ?_, fun dataC hu hco hh => ?_⟩ <;>
    rw [display_table_eq doc sd hc]
  · rw [if_neg (by rw [hu]; exact Bool.false_ne_true)]
  · rw [if_pos hu, hco]
  · rw [if_pos hu, hco]
    exact assemble_headers_nil sd dataC hh

/-- C5 (witness): the amended claim at a concrete document whose second
data cell fails to parse. -/
theorem claim_C5_witness :
    display_table [⟨[], ["h"], false⟩, ⟨["x", "abc"], [], false⟩] =
      .halfCoerced [(1, ["x", "abc"])] :=
  ((claim_C5_partial_returns [⟨[], ["h"], false⟩, ⟨["x", "abc"], [], false⟩]
      ⟨[["h"]], [], [(1, ["x", "abc"])]⟩ (by decide)).2.1 (by decide)
      (by decide)).trans (by decide)

/-- C7: exact-name lookup over the resolver's output: a unique match
returns that entry's url, several matches return the first in document
order, and no match returns the distinct not-found result (`None`), not a
fetch-layer error. -/
theorem claim_C7_lookup (ti : List (String × String)) (nm : String) :
    (∀ e, ti.filter (fun e' => e'.1 = nm) = [e] → get_table_url ti nm = some e.2) ∧
    (∀ e rest, ti.filter (fun e' => e'.1 = nm) = e :: rest →
      get_table_url ti nm = some e.2) ∧
    (ti.filter (fun e' => e'.1 = nm) = [] → get_table_url ti nm = none) := by
  refine ⟨fun e h => ?_, fun e rest h => ?_, fun h => ?_⟩ <;>
    · unfold get_table_url
      rw [h]

/-- C7 (witness): the lookup at concrete resolver outputs. -/
theorem claim_C7_witness :
    get_table_url [("a", "u1"), ("b", "u2"), ("a", "u3")] "a" = some "u1" ∧
    get_table_url [("a", "u1")] "zz" = none :=
  ⟨(claim_C7_lookup [("a", "u1"), ("b", "u2"), ("a", "u3")] "a").2.1 ("a", "u1")
      [("a", "u3")] (by decide),
   (claim_C7_lookup [("a", "u1")] "zz").2.2 (by decide)⟩

/-- C10 (counterexample): on the spec's end-to-end scenario the second
header row (["Label", "FY2021"], 2 cells) does not match the single value
column, `ret_df.columns = header` raises, and `display_table` returns the
half-processed merged table — not a FinalTable with
columnHeaders = ["FY2021"]. -/
theorem claim_C10_counterexample :
    display_table [⟨[], ["", "FY2021"], false⟩, ⟨[], ["Label", "FY2021"], false⟩,
        ⟨["Net sales", "$100"], [], false⟩, ⟨["Operating expenses:"], [], true⟩] =
      .halfRenamed [(2, [.str "Net sales", .num (.val 100)]),
        (3, [.str "Operating expenses:", .num .missing])] ∧
    (display_table [⟨[], ["", "FY2021"], false⟩, ⟨[], ["Label", "FY2021"], false⟩,
        ⟨["Net sales", "$100"], [], false⟩,
        ⟨["Operating expenses:"], [], true⟩]).isSuccess = false :=
  ⟨by decide, by decide⟩

/-- C10 (amended): the end-to-end scenario succeeds once the second header
row carries exactly the value columns (["FY2021"]): rowLabels are
["Net sales", "Operating expenses:"] in that order, columnHeaders is
["FY2021"], and the cell at ("Net sales", "FY2021") is 100.0. -/
theorem claim_C10_e2e :
    display_table [⟨[], ["", "FY2021"], false⟩, ⟨[], ["FY2021"], false⟩,
        ⟨["Net sales", "$100"], [], false⟩, ⟨["Operating expenses:"], [], true⟩] =
      .success ⟨" - FY2021", [.str "Net sales", .str "Operating expenses:"],
        ["FY2021"], [[.num (.val 100)], [.num .missing]]⟩ ∧
    FinalTable.cell ⟨" - FY2021", [.str "Net sales", .str "Operating expenses:"],
        ["FY2021"], [[.num (.val 100)], [.num .missing]]⟩ "Net sales" "FY2021" =
      some (.num (.val 100)) :=
  ⟨by decide, by decide⟩

end FFF
